import Mathlib

/-!
Verification of the Olho de Deus auto-healing stream monitor.

This file gives a shallow embedding of the monitoring core of the
repository (olho_de_deus/main.py and olho_de_deus/youtube_stream.py)
and proves properties of it.

Modelling conventions:
 - a decoded frame is represented by the flat list of its luminance
   pixels (the single-channel image obtained by cv2.cvtColor); a failed
   read (ret = False, frame None) is represented by Option.none;
 - exact rational arithmetic stands in for the float arithmetic of
   numpy/python on the small integer quantities involved;
 - python strings are lists of characters; s.split(sep) indexing is
   modelled by explicit first-occurrence splitting.
-/

/-- Embedding of check_stream_health (youtube_stream.py, lines 44-64).
The source converts the frame to grayscale, thresholds at 5
(cv2.threshold with THRESH_BINARY counts pixels strictly above 5),
and declares the stream dead when fewer than 2 percent of the pixels
are above the threshold.  A missing frame (read failure) is unhealthy. -/
def check_stream_health (frame : Option (List Nat)) : Bool :=
  match frame with
  | none => false
  | some px =>
    let non_zero : Nat := px.countP (fun v => decide (5 < v))
    let total : Nat := px.length
    if ((non_zero : ℚ) / (total : ℚ) < 2 / 100) then false else true

/-- Mean luminance of a frame, as an exact rational (spec section 4.1). -/
def pixelMean (px : List Nat) : ℚ :=
  ((px.map (fun v : Nat => (v : ℚ))).sum) / (px.length : ℚ)

/-- Population variance of the luminance of a frame.  The spec speaks of
the standard deviation; std < 2 is equivalent to variance < 4. -/
def pixelVar (px : List Nat) : ℚ :=
  ((px.map (fun v : Nat => ((v : ℚ) - pixelMean px) ^ 2)).sum) / (px.length : ℚ)

/-- Outcome of the external yt-dlp subprocess run
(youtube_stream.py, line 34): it can complete with a return code and
captured stdout, exceed the timeout (subprocess.TimeoutExpired), or
raise some other exception. -/
inductive SubprocOutcome
  | completed (returncode : Int) (stdout : List Char)
  | timedOut
  | raised

/-- The timeout (in seconds) passed to subprocess.run in get_live_url. -/
def ytdlpTimeoutSeconds : Nat := 15

/-- Characters python str.strip removes. -/
def pyIsSpace (c : Char) : Bool :=
  c = ' ' || c = '\t' || c = '\n' || c = '\x0d' || c = '\x0b' || c = '\x0c'

/-- Embedding of python str.strip (no arguments). -/
def pyStrip (s : List Char) : List Char :=
  ((s.dropWhile pyIsSpace).reverse.dropWhile pyIsSpace).reverse

/-- Embedding of the error handling of get_live_url
(youtube_stream.py, lines 33-42) around the subprocess call: a nonzero
return code yields None, a timeout or any other exception is caught by
the except clause and yields None, and a successful run yields the
stripped stdout. -/
def runYtDlp (outcome : SubprocOutcome) : Option (List Char) :=
  match outcome with
  | SubprocOutcome.completed rc out => if rc ≠ 0 then none else some (pyStrip out)
  | SubprocOutcome.timedOut => none
  | SubprocOutcome.raised => none

/-- Split a list at the first occurrence of the separator sep, returning
the part before it and the part after it, or none when sep does not
occur.  This models the information python s.split(sep) exposes through
the indices [0] and [1] used by the source. -/
def splitFirst (sep : List Char) : List Char → Option (List Char × List Char)
  | [] => if sep.isEmpty then some ([], []) else none
  | c :: cs =>
    if sep.isPrefixOf (c :: cs) then some ([], (c :: cs).drop sep.length)
    else
      match splitFirst sep cs with
      | some (pre, post) => some (c :: pre, post)
      | none => none

/-- Python substring membership: sep in s. -/
def containsSub (sep s : List Char) : Bool := (splitFirst sep s).isSome

/-- Python s.split(sep)[0]: the part of s before the first occurrence of
sep, or all of s when sep does not occur. -/
def upToFirst (sep s : List Char) : List Char :=
  match splitFirst sep s with
  | some (pre, _) => pre
  | none => s

/-- Python s.split(sep)[1] for sep occurring in s: the segment strictly
between the first occurrence of sep and the next one (or the end). -/
def segAfterFirst (sep s : List Char) : List Char :=
  match splitFirst sep s with
  | some (_, post) => upToFirst sep post
  | none => s

/-- A camera record of the registry (cameras.json), with the fields
main.py consumes. -/
structure Camera where
  name : List Char
  camId : List Char
  description : List Char
deriving DecidableEq, Repr

/-- A city holds a list of cameras, in insertion order of the JSON. -/
structure City where
  cameras : List Camera
deriving DecidableEq, Repr

/-- A state holds its cities in insertion order. -/
structure CState where
  cities : List City
deriving DecidableEq, Repr

/-- A country holds its states in insertion order. -/
structure Country where
  states : List CState
deriving DecidableEq, Repr

/-- Python str.lower, per character. -/
def lowerStr (s : List Char) : List Char := s.map Char.toLower

/-- The match test of CameraLoader.find_camera (main.py, line 41):
name.lower() in cam["name"].lower(), a case-insensitive substring test. -/
def nameMatches (query : List Char) (cam : Camera) : Bool :=
  containsSub (lowerStr query) (lowerStr cam.name)

/-- Embedding of CameraLoader.find_camera (main.py, lines 35-43): nested
loops over countries, states, cities and cameras with an early return on
the first matching camera. -/
def find_camera (data : List Country) (name : List Char) : Option Camera :=
  data.findSome? (fun country =>
    country.states.findSome? (fun st =>
      st.cities.findSome? (fun city =>
        city.cameras.find? (nameMatches name))))

/-- All cameras of the hierarchy, in the traversal order of find_camera
(insertion order of the country, state, city, camera nesting). -/
def allCameras (data : List Country) : List Camera :=
  data.flatMap (fun country =>
    country.states.flatMap (fun st =>
      st.cities.flatMap (fun city => city.cameras)))

/-- Capture-resource events of VideoMonitor, recorded in program order:
a resolver call (get_live_url, with its outcome), an attempt to open a
capture (cv2.VideoCapture inside _init_capture, with its outcome), and a
release of the capture (cap.release()). -/
inductive HealEvent
  | eResolve (ok : Bool)
  | eOpen (ok : Bool)
  | eRelease
deriving DecidableEq, Repr

/-- The mutable per-session state of VideoMonitor.play
(main.py, lines 72-158): the consecutive-failure counter, whether the
session has a YouTube id (self.youtube_id is not None), whether self.cap
currently holds an open capture, and whether the loop has terminated. -/
structure MState where
  failures : Nat
  hasId : Bool
  capOpen : Bool
  stopped : Bool
deriving DecidableEq, Repr

/-- User commands read through cv2.waitKey. -/
inductive Cmd
  | cNone
  | cQuit
  | cSave
deriving DecidableEq, Repr

/-- One observable stimulus of a loop iteration: a tick is an iteration
in which the sampling interval has not yet elapsed (only the keyboard is
polled); interrupt is a KeyboardInterrupt; sample is an iteration that
reads a frame, with the environment responses the iteration may consume
(read outcome, frame health, resolver outcome, reopen outcome, key). -/
inductive MInput
  | tick (cmd : Cmd)
  | interrupt
  | sample (ret : Bool) (healthy : Bool) (resolveOk : Bool) (reopenOk : Bool) (cmd : Cmd)
deriving DecidableEq, Repr

/-- The release-and-reopen part of the auto-healing branch
(main.py, lines 115-121): release the capture, attempt to reopen it; on
success reset the failure counter, on failure break out of the loop. -/
def healReopen (s : MState) (reopenOk : Bool) : MState × List HealEvent :=
  if reopenOk then
    ({ s with failures := 0, capOpen := true },
     [HealEvent.eRelease, HealEvent.eOpen true])
  else
    ({ s with capOpen := false, stopped := true },
     [HealEvent.eRelease, HealEvent.eOpen false])

/-- One sampling iteration of VideoMonitor.play (main.py, lines 94-151):
read a frame, classify it, update the consecutive-failure counter, run
the auto-healing branch at the threshold, and on a healthy frame display
it and poll the keyboard. -/
def sampleStep (s : MState) (ret healthy resolveOk reopenOk : Bool) (cmd : Cmd) :
    MState × List HealEvent :=
  let is_healthy := if ret then healthy else false
  if !ret || !is_healthy then
    let f := s.failures + 1
    if 3 ≤ f then
      if s.hasId then
        if resolveOk then
          let r := healReopen { s with failures := f } reopenOk
          (r.1, HealEvent.eResolve true :: r.2)
        else
          ({ s with failures := f, stopped := true }, [HealEvent.eResolve false])
      else
        healReopen { s with failures := f } reopenOk
    else
      ({ s with failures := f }, [])
  else
    let s1 := { s with failures := 0 }
    match cmd with
    | Cmd.cQuit => ({ s1 with stopped := true }, [])
    | _ => (s1, [])

/-- One iteration of the while loop of VideoMonitor.play. -/
def stepM (s : MState) (i : MInput) : MState × List HealEvent :=
  match i with
  | MInput.tick cmd =>
    (if cmd = Cmd.cQuit then { s with stopped := true } else s, [])
  | MInput.interrupt => ({ s with stopped := true }, [])
  | MInput.sample ret healthy resolveOk reopenOk cmd =>
    sampleStep s ret healthy resolveOk reopenOk cmd

/-- Run the while loop of VideoMonitor.play over a list of stimuli,
stopping at the first break, and collect the resource events. -/
def runLoop (s : MState) : List MInput → MState × List HealEvent
  | [] => (s, [])
  | i :: is =>
    if s.stopped then (s, [])
    else
      let r := stepM s i
      let r2 := runLoop r.1 is
      (r2.1, r.2 ++ r2.2)

/-- The session state right after a successful VideoMonitor.__init__. -/
def initState (hasId : Bool) : MState :=
  { failures := 0, hasId := hasId, capOpen := true, stopped := false }

/-- A whole monitoring session (main.py, lines 57-158): the initial
capture open in __init__, the loop of play, and the finally clause that
releases the capture when the loop has terminated. -/
def playM (hasId : Bool) (initOpenOk : Bool) (inputs : List MInput) :
    MState × List HealEvent :=
  if initOpenOk then
    let r := runLoop (initState hasId) inputs
    if r.1.stopped then
      if r.1.capOpen then
        ({ r.1 with capOpen := false },
         HealEvent.eOpen true :: r.2 ++ [HealEvent.eRelease])
      else
        (r.1, HealEvent.eOpen true :: r.2)
    else (r.1, HealEvent.eOpen true :: r.2)
  else
    ({ failures := 0, hasId := hasId, capOpen := false, stopped := true },
     [HealEvent.eOpen false])

/-- Contribution of an event to the number of simultaneously open
capture handles. -/
def openDelta : HealEvent → Int
  | HealEvent.eOpen true => 1
  | HealEvent.eRelease => -1
  | _ => 0

/-- Starting from k simultaneously open handles, check that after every
event of the trace the number of open handles stays between 0 and 1. -/
def balancedFrom : Int → List HealEvent → Bool
  | _, [] => true
  | k, e :: es =>
    let k2 := k + openDelta e
    decide (0 ≤ k2) && decide (k2 ≤ 1) && balancedFrom k2 es

/-- Number of handles still open after a trace, starting from k. -/
def finalBal : Int → List HealEvent → Int
  | k, [] => k
  | k, e :: es => finalBal (k + openDelta e) es

/-- Count of resolver calls in a trace. -/
def countResolve (l : List HealEvent) : Nat :=
  l.countP (fun e => match e with | HealEvent.eResolve _ => true | _ => false)

/-- Count of capture-open attempts in a trace. -/
def countOpenAttempt (l : List HealEvent) : Nat :=
  l.countP (fun e => match e with | HealEvent.eOpen _ => true | _ => false)

def failRead (resolveOk reopenOk : Bool) : MInput :=
  MInput.sample false false resolveOk reopenOk Cmd.cNone

/-- The separator of the v= query parameter. -/
def vSep : List Char := ['v', '=']

/-- The literal youtube.com tested for by get_live_url. -/
def ytCom : List Char := "youtube.com".toList

/-- The literal youtu.be tested for by get_live_url. -/
def ytBe : List Char := "youtu.be".toList

/-- The literal youtu.be/ used to take the path segment. -/
def ytBeSlash : List Char := "youtu.be/".toList

/-- The separator cutting trailing parameters after a v= value. -/
def ampSep : List Char := ['&']

/-- The separator cutting a trailing query after a path segment. -/
def qmSep : List Char := ['?']

/-- Embedding of the URL normalization at the start of get_live_url
(youtube_stream.py, lines 18-23): when the input mentions youtube.com
or youtu.be, an input containing v= keeps what stands between the first
v= and the following ampersand, otherwise an input containing youtu.be/
keeps the path segment up to a question mark; anything else is passed
through unchanged. -/
def extractId (s : List Char) : List Char :=
  if containsSub ytCom s || containsSub ytBe s then
    if containsSub vSep s then
      upToFirst ampSep (segAfterFirst vSep s)
    else if containsSub ytBeSlash s then
      upToFirst qmSep (segAfterFirst ytBeSlash s)
    else s
  else s

/-- The fixed first part of the URL handed to yt-dlp (line 31). -/
def watchReqPre : List Char := "https://www.youtube.com/watch?v=".toList

/-- The full URL handed to yt-dlp after normalization (line 31). -/
def requestUrl (s : List Char) : List Char := watchReqPre ++ extractId s

/-- The normalization as the claim words it: an input containing
youtube.com with a v= parameter takes the v= value; an input containing
youtu.be/ takes the path segment.  This definition follows the claim,
to be compared against extractId, which follows the code. -/
def specExtractId (s : List Char) : List Char :=
  if containsSub ytCom s && containsSub vSep s then
    upToFirst ampSep (segAfterFirst vSep s)
  else if containsSub ytBeSlash s then
    upToFirst qmSep (segAfterFirst ytBeSlash s)
  else s

/-- Characters that can occur in a bare YouTube video id. -/
def isIdChar (c : Char) : Bool := c.isAlphanum || c = '-' || c = '_'

/-- The watch URL up to the v= parameter. -/
def watchBase : List Char := "https://www.youtube.com/watch?".toList

/-- The short-link URL up to the path segment. -/
def shortBase : List Char := "https://youtu.be/".toList

/-- The scheme-and-host part of watchBase that precedes youtube.com. -/
def wwwPre : List Char := "https://www.".toList

/-- The scheme part of shortBase that precedes youtu.be/. -/
def httpsPre : List Char := "https://".toList

/-- The pathological input of the C10 counterexample: a youtu.be link
whose query carries a v= parameter. -/
def c10input : List Char := "youtu.be/A?v=Z".toList

/-- A concrete video id for the C10 witness. -/
def c10id : List Char := "dQw4w9WgXcQ".toList

/-- A concrete watch URL carrying the witness id and a tail. -/
def c10urlW : List Char := "https://www.youtube.com/watch?v=dQw4w9WgXcQ&t=5".toList

/-- A concrete short URL carrying the witness id and a tail. -/
def c10urlS : List Char := "https://youtu.be/dQw4w9WgXcQ?t=5".toList

/-- Sum of a map of casts equals the cast of the sum. -/
lemma sum_map_cast (px : List Nat) :
    ((px.map (fun v : Nat => (v : ℚ))).sum) = ((px.sum : Nat) : ℚ) := by
  induction px with
  | nil => simp
  | cons v t ih =>
    rw [List.map_cons, List.sum_cons, List.sum_cons, ih]
    push_cast
    ring

/-- A frame of 8-bit pixels has its sum bounded by 5 per dim pixel and
255 per bright pixel. -/
lemma sum_le_of_bounded (px : List Nat) (h : ∀ v ∈ px, v ≤ 255) :
    px.sum ≤ 5 * px.length + 250 * px.countP (fun v => decide (5 < v)) := by
  induction px with
  | nil => simp
  | cons v t ih =>
    have hv : v ≤ 255 := h v (List.mem_cons_self v t)
    have ht : ∀ w ∈ t, w ≤ 255 := fun w hw => h w (List.mem_cons_of_mem v hw)
    have ih2 := ih ht
    rw [List.sum_cons, List.length_cons, List.countP_cons]
    simp only [decide_eq_true_eq]
    by_cases h5 : 5 < v
    · rw [if_pos h5]
      omega
    · rw [if_neg h5]
      omega

/-- Unfolding of check_stream_health on a present frame. -/
lemma check_some_eq (px : List Nat) :
    check_stream_health (some px) =
      if ((px.countP (fun v => decide (5 < v)) : ℚ) / (px.length : ℚ) < 2 / 100)
      then false else true := rfl

/-- When check_stream_health rejects a nonempty frame, fewer than one in
fifty of its pixels are above the luminance threshold 5. -/
lemma check_false_iff (px : List Nat) (hne : px ≠ []) :
    check_stream_health (some px) = false ↔
      50 * px.countP (fun v => decide (5 < v)) < px.length := by
  have hlen : 0 < px.length := List.length_pos.mpr hne
  have hlenQ : (0 : ℚ) < (px.length : ℚ) := by exact_mod_cast hlen
  rw [check_some_eq]
  have hiff :
      ((px.countP (fun v => decide (5 < v)) : ℚ) / (px.length : ℚ) < 2 / 100) ↔
        50 * px.countP (fun v => decide (5 < v)) < px.length := by
    rw [div_lt_div_iff₀ hlenQ (by norm_num : (0:ℚ) < 100)]
    constructor
    · intro hc
      have hn : px.countP (fun v => decide (5 < v)) * 100 < 2 * px.length := by
        exact_mod_cast hc
      omega
    · intro hc
      have hn : px.countP (fun v => decide (5 < v)) * 100 < 2 * px.length := by
        omega
      exact_mod_cast hn
  by_cases hc :
      ((px.countP (fun v => decide (5 < v)) : ℚ) / (px.length : ℚ) < 2 / 100)
  · rw [if_pos hc]
    simp [hiff.mp hc]
  · rw [if_neg hc]
    simp only [Bool.true_eq_false, false_iff]
    exact fun hn => hc (hiff.mpr hn)

/-- A stopped loop consumes nothing and emits nothing. -/
lemma runLoop_stopped (s : MState) (inputs : List MInput) (h : s.stopped = true) :
    runLoop s inputs = (s, []) := by
  cases inputs with
  | nil => rfl
  | cons i is => simp [runLoop, h]

/-- Case equation: a healthy frame resets the counter; the keyboard is
polled afterwards. -/
lemma sampleStep_healthy (s : MState) (resolveOk reopenOk : Bool) (cmd : Cmd) :
    sampleStep s true true resolveOk reopenOk cmd =
      (if cmd = Cmd.cQuit then { s with failures := 0, stopped := true }
       else { s with failures := 0 }, []) := by
  cases cmd <;> simp [sampleStep]

/-- Case equation: a failed classification below the threshold only
increments the counter. -/
lemma sampleStep_fail_low (s : MState) (ret healthy resolveOk reopenOk : Bool) (cmd : Cmd)
    (hfail : (ret && healthy) = false) (hlow : s.failures + 1 < 3) :
    sampleStep s ret healthy resolveOk reopenOk cmd =
      ({ s with failures := s.failures + 1 }, []) := by
  have h3 : ¬ (3 ≤ s.failures + 1) := by omega
  cases ret <;> cases healthy <;> simp_all [sampleStep]

/-- Case equation: at the threshold, an identified session whose
re-resolution fails stops at once. -/
lemma sampleStep_heal_resolveFail (s : MState) (ret healthy reopenOk : Bool) (cmd : Cmd)
    (hfail : (ret && healthy) = false) (hth : 3 ≤ s.failures + 1) (hid : s.hasId = true) :
    sampleStep s ret healthy false reopenOk cmd =
      ({ s with failures := s.failures + 1, stopped := true },
       [HealEvent.eResolve false]) := by
  cases ret <;> cases healthy <;> simp_all [sampleStep]

/-- Case equation: at the threshold, an identified session whose
re-resolution succeeds releases and reopens the capture. -/
lemma sampleStep_heal_resolveOk (s : MState) (ret healthy reopenOk : Bool) (cmd : Cmd)
    (hfail : (ret && healthy) = false) (hth : 3 ≤ s.failures + 1) (hid : s.hasId = true) :
    sampleStep s ret healthy true reopenOk cmd =
      (if reopenOk then
        ({ s with failures := 0, capOpen := true },
         [HealEvent.eResolve true, HealEvent.eRelease, HealEvent.eOpen true])
       else
        ({ s with failures := s.failures + 1, capOpen := false, stopped := true },
         [HealEvent.eResolve true, HealEvent.eRelease, HealEvent.eOpen false])) := by
  cases reopenOk <;> cases ret <;> cases healthy <;> simp_all [sampleStep, healReopen]

/-- Case equation: at the threshold, a session without an identifier
releases and reopens the same source without calling the resolver. -/
lemma sampleStep_heal_noId (s : MState) (ret healthy resolveOk reopenOk : Bool) (cmd : Cmd)
    (hfail : (ret && healthy) = false) (hth : 3 ≤ s.failures + 1) (hid : s.hasId = false) :
    sampleStep s ret healthy resolveOk reopenOk cmd =
      (if reopenOk then
        ({ s with failures := 0, capOpen := true },
         [HealEvent.eRelease, HealEvent.eOpen true])
       else
        ({ s with failures := s.failures + 1, capOpen := false, stopped := true },
         [HealEvent.eRelease, HealEvent.eOpen false])) := by
  cases reopenOk <;> cases ret <;> cases healthy <;> simp_all [sampleStep, healReopen]

/-- One loop step keeps the running-state counter at most 2. -/
lemma stepM_failures_le (s : MState) (i : MInput)
    (h : s.stopped = false → s.failures ≤ 2) :
    (stepM s i).1.stopped = false → (stepM s i).1.failures ≤ 2 := by
  cases i with
  | tick cmd => cases cmd <;> simp_all [stepM]
  | interrupt => simp [stepM]
  | sample ret healthy resolveOk reopenOk cmd =>
    show (sampleStep s ret healthy resolveOk reopenOk cmd).1.stopped = false →
      (sampleStep s ret healthy resolveOk reopenOk cmd).1.failures ≤ 2
    by_cases hok : (ret && healthy) = true
    · obtain ⟨h1, h2⟩ := Bool.and_eq_true_iff.mp hok
      subst h1; subst h2
      rw [sampleStep_healthy]
      cases cmd <;> simp
    · have hfail : (ret && healthy) = false := by
        revert hok; cases (ret && healthy) <;> simp
      by_cases hth : 3 ≤ s.failures + 1
      · cases hid : s.hasId with
        | false =>
          rw [sampleStep_heal_noId s ret healthy resolveOk reopenOk cmd hfail hth hid]
          cases reopenOk <;> simp
        | true =>
          cases resolveOk with
          | false =>
            rw [sampleStep_heal_resolveFail s ret healthy reopenOk cmd hfail hth hid]
            simp
          | true =>
            rw [sampleStep_heal_resolveOk s ret healthy reopenOk cmd hfail hth hid]
            cases reopenOk <;> simp
      · rw [sampleStep_fail_low s ret healthy resolveOk reopenOk cmd hfail (by omega)]
        intro hrun
        have hs2 : s.stopped = false := hrun
        have hle := h hs2
        show s.failures + 1 ≤ 2
        omega

/-- Along any run of the loop the counter stays at most 2 while the
loop is alive. -/
lemma runLoop_failures_le (inputs : List MInput) : ∀ s : MState,
    (s.stopped = false → s.failures ≤ 2) →
    ((runLoop s inputs).1.stopped = false → (runLoop s inputs).1.failures ≤ 2) := by
  induction inputs with
  | nil => intro s h; exact h
  | cons i is ih =>
    intro s h
    by_cases hs : s.stopped = true
    · rw [runLoop_stopped s (i :: is) hs]
      exact h
    · have hs2 : s.stopped = false := by
        revert hs; cases s.stopped <;> simp
      simp only [runLoop, hs2, Bool.false_eq_true, if_false]
      exact ih (stepM s i).1 (stepM_failures_le s i h)

/-- C1: in any reachable live state of the sampling loop the
consecutive-failure counter is at most 2, and the next sampling
iteration enters the healing branch (it calls the resolver or touches
the capture, so its event trace is nonempty) exactly when the read is
not healthy and the counter stood at 2, that is, exactly when the
streak reaches 3; in particular a streak of 2 never triggers healing. -/
theorem c1_heal_iff_streak_reaches_three (hasId : Bool) (inputs : List MInput)
    (ret healthy resolveOk reopenOk : Bool) (cmd : Cmd)
    (hrun : (runLoop (initState hasId) inputs).1.stopped = false) :
    (runLoop (initState hasId) inputs).1.failures ≤ 2 ∧
    ((sampleStep (runLoop (initState hasId) inputs).1
        ret healthy resolveOk reopenOk cmd).2 ≠ [] ↔
      ((ret && healthy) = false ∧
        (runLoop (initState hasId) inputs).1.failures = 2)) := by
  have hle : (runLoop (initState hasId) inputs).1.failures ≤ 2 :=
    runLoop_failures_le inputs (initState hasId) (fun _ => by simp [initState]) hrun
  set s := (runLoop (initState hasId) inputs).1 with hsdef
  refine ⟨hle, ?_, ?_⟩
  · intro hne
    by_cases hok : (ret && healthy) = true
    · obtain ⟨h1, h2⟩ := Bool.and_eq_true_iff.mp hok
      subst h1; subst h2
      rw [sampleStep_healthy] at hne
      simp at hne
    · have hfail : (ret && healthy) = false := by
        revert hok; cases (ret && healthy) <;> simp
      by_cases hth : 3 ≤ s.failures + 1
      · exact ⟨hfail, by omega⟩
      · rw [sampleStep_fail_low s ret healthy resolveOk reopenOk cmd hfail (by omega)]
          at hne
        simp at hne
  · rintro ⟨hfail, hf2⟩
    have hth : 3 ≤ s.failures + 1 := by omega
    cases hid : s.hasId with
    | false =>
      rw [sampleStep_heal_noId s ret healthy resolveOk reopenOk cmd hfail hth hid]
      cases reopenOk <;> simp
    | true =>
      cases resolveOk with
      | false =>
        rw [sampleStep_heal_resolveFail s ret healthy reopenOk cmd hfail hth hid]
        simp
      | true =>
        rw [sampleStep_heal_resolveOk s ret healthy reopenOk cmd hfail hth hid]
        cases reopenOk <;> simp

/-- Witness for C1: after two failed reads the loop is alive with a
streak of 2, and a further failed read (and only a failed read)
triggers healing. -/
theorem c1_heal_iff_streak_reaches_three_witness :
    (runLoop (initState false) [failRead false true, failRead false true]).1.failures ≤ 2 ∧
    ((sampleStep (runLoop (initState false) [failRead false true, failRead false true]).1
        false false false true Cmd.cNone).2 ≠ [] ↔
      ((false && false) = false ∧
        (runLoop (initState false) [failRead false true, failRead false true]).1.failures = 2)) :=
  c1_heal_iff_streak_reaches_three false [failRead false true, failRead false true]
    false false false true Cmd.cNone (by decide)

/-- C4 counterexample: an identified session suffers three failed
reads; healing runs to completion (resolver succeeds, the capture is
released and reopened) but the reopen fails, and the monitor stops with
the counter still at 3 — the counter is not reset after an unsuccessful
healing attempt, contrary to the claim. -/
theorem c4_counterexample :
    (runLoop (initState true)
        [failRead true false, failRead true false, failRead true false]).2
      = [HealEvent.eResolve true, HealEvent.eRelease, HealEvent.eOpen false] ∧
    (runLoop (initState true)
        [failRead true false, failRead true false, failRead true false]).1.stopped = true ∧
    (runLoop (initState true)
        [failRead true false, failRead true false, failRead true false]).1.failures = 3 := by
  decide

/-- C4 amended: the counter gains exactly 1 on each non-healthy
classification, resets to 0 on a healthy one, and resets to 0 after a
healing attempt only when that attempt succeeds; when healing fails the
monitor stops at once and the counter keeps its value 3. -/
theorem c4_streak_update_rules (s : MState) (ret healthy resolveOk reopenOk : Bool)
    (cmd : Cmd) (hrun : s.stopped = false) :
    ((ret && healthy) = true →
      (sampleStep s ret healthy resolveOk reopenOk cmd).1.failures = 0) ∧
    ((ret && healthy) = false → s.failures + 1 < 3 →
      (sampleStep s ret healthy resolveOk reopenOk cmd).1.failures = s.failures + 1 ∧
      (sampleStep s ret healthy resolveOk reopenOk cmd).1.stopped = false) ∧
    ((ret && healthy) = false → 3 ≤ s.failures + 1 →
      (cond s.hasId (resolveOk && reopenOk) reopenOk = true →
        (sampleStep s ret healthy resolveOk reopenOk cmd).1.failures = 0 ∧
        (sampleStep s ret healthy resolveOk reopenOk cmd).1.stopped = false) ∧
      (cond s.hasId (resolveOk && reopenOk) reopenOk = false →
        (sampleStep s ret healthy resolveOk reopenOk cmd).1.stopped = true ∧
        (sampleStep s ret healthy resolveOk reopenOk cmd).1.failures = s.failures + 1)) := by
  refine ⟨?_, ?_, ?_⟩
  · intro hok
    obtain ⟨h1, h2⟩ := Bool.and_eq_true_iff.mp hok
    subst h1; subst h2
    rw [sampleStep_healthy]
    cases cmd <;> simp
  · intro hfail hlow
    rw [sampleStep_fail_low s ret healthy resolveOk reopenOk cmd hfail hlow]
    exact ⟨rfl, hrun⟩
  · intro hfail hth
    cases hid : s.hasId with
    | false =>
      rw [sampleStep_heal_noId s ret healthy resolveOk reopenOk cmd hfail hth hid]
      cases reopenOk <;> simp [hrun]
    | true =>
      cases resolveOk with
      | false =>
        rw [sampleStep_heal_resolveFail s ret healthy reopenOk cmd hfail hth hid]
        simp
      | true =>
        rw [sampleStep_heal_resolveOk s ret healthy reopenOk cmd hfail hth hid]
        cases reopenOk <;> simp [hrun]

/-- Witness for the amended C4: a healthy read resets a streak of 1. -/
theorem c4_streak_update_rules_witness :
    (sampleStep { failures := 1, hasId := false, capOpen := true, stopped := false }
      true true false true Cmd.cNone).1.failures = 0 :=
  (c4_streak_update_rules
      { failures := 1, hasId := false, capOpen := true, stopped := false }
      true true false true Cmd.cNone (by decide)).1 (by decide)

/-- C6 counterexample: a local-file session (no identifier) whose
source hits end-of-stream delivers ret = False reads; the first one
already increments the failure streak, and the third triggers a
release-and-reopen healing attempt whose failure stops the monitor
with a fatal error — end-of-stream is treated exactly like a read
failure, with no distinct completion report. -/
theorem c6_counterexample :
    (runLoop (initState false) [failRead false false]).1.failures = 1 ∧
    (runLoop (initState false)
        [failRead false false, failRead false false, failRead false false]).2
      = [HealEvent.eRelease, HealEvent.eOpen false] ∧
    (runLoop (initState false)
        [failRead false false, failRead false false, failRead false false]).1.stopped
      = true := by
  decide

/-- C6 amended: on a local-file session, end-of-stream reads are
indistinguishable from read failures: with a streak of 2, a further
failed read triggers release and reopen of the same source without
calling the resolver; if the reopen succeeds the file is replayed with
the streak reset, and if it fails the monitor stops with a fatal error
rather than reporting completion. -/
theorem c6_local_eof_treated_as_read_failure (s : MState)
    (healthy resolveOk reopenOk : Bool) (cmd : Cmd)
    (hrun : s.stopped = false) (hid : s.hasId = false) (hf : s.failures = 2) :
    (sampleStep s false healthy resolveOk reopenOk cmd).2 =
      [HealEvent.eRelease, HealEvent.eOpen reopenOk] ∧
    (reopenOk = true →
      (sampleStep s false healthy resolveOk reopenOk cmd).1.stopped = false ∧
      (sampleStep s false healthy resolveOk reopenOk cmd).1.failures = 0) ∧
    (reopenOk = false →
      (sampleStep s false healthy resolveOk reopenOk cmd).1.stopped = true) := by
  have hth : 3 ≤ s.failures + 1 := by omega
  rw [sampleStep_heal_noId s false healthy resolveOk reopenOk cmd (by simp) hth hid]
  cases reopenOk <;> simp [hrun]

/-- Witness for the amended C6: concrete end-of-stream step at streak 2
with a succeeding reopen. -/
theorem c6_local_eof_treated_as_read_failure_witness :
    (sampleStep { failures := 2, hasId := false, capOpen := true, stopped := false }
        false false false true Cmd.cNone).2 =
      [HealEvent.eRelease, HealEvent.eOpen true] :=
  (c6_local_eof_treated_as_read_failure
      { failures := 2, hasId := false, capOpen := true, stopped := false }
      false false true Cmd.cNone (by decide) (by decide) (by decide)).1

/-- C7: a sampling iteration that reaches the healing threshold calls
the resolver at most once and attempts at most one capture open; if the
session is identified and the resolver fails, the loop stops at once
having done nothing but that single resolver call; if the reopen fails
the loop stops as well; and once stopped the loop consumes no further
input and performs no further resource action. -/
theorem c7_healing_failure_escalates_immediately (s : MState)
    (ret healthy resolveOk reopenOk : Bool) (cmd : Cmd)
    (hfail : (ret && healthy) = false) (hth : 3 ≤ s.failures + 1) :
    countResolve (sampleStep s ret healthy resolveOk reopenOk cmd).2 ≤ 1 ∧
    countOpenAttempt (sampleStep s ret healthy resolveOk reopenOk cmd).2 ≤ 1 ∧
    (s.hasId = true → resolveOk = false →
      (sampleStep s ret healthy resolveOk reopenOk cmd).1.stopped = true ∧
      (sampleStep s ret healthy resolveOk reopenOk cmd).2 = [HealEvent.eResolve false]) ∧
    ((s.hasId = false ∨ resolveOk = true) → reopenOk = false →
      (sampleStep s ret healthy resolveOk reopenOk cmd).1.stopped = true) ∧
    ((sampleStep s ret healthy resolveOk reopenOk cmd).1.stopped = true →
      ∀ more : List MInput,
        runLoop (sampleStep s ret healthy resolveOk reopenOk cmd).1 more =
          ((sampleStep s ret healthy resolveOk reopenOk cmd).1, [])) := by
  cases hid : s.hasId with
  | false =>
    rw [sampleStep_heal_noId s ret healthy resolveOk reopenOk cmd hfail hth hid]
    cases reopenOk <;>
      refine ⟨?_, ?_, ?_, ?_, fun ht more => runLoop_stopped _ more ht⟩ <;>
      simp [countResolve, countOpenAttempt, List.countP_cons, List.countP_nil, hid]
  | true =>
    cases resolveOk with
    | false =>
      rw [sampleStep_heal_resolveFail s ret healthy reopenOk cmd hfail hth hid]
      refine ⟨?_, ?_, fun _ _ => ⟨rfl, rfl⟩, ?_,
        fun ht more => runLoop_stopped _ more ht⟩ <;>
      simp [countResolve, countOpenAttempt, List.countP_cons, List.countP_nil, hid]
    | true =>
      rw [sampleStep_heal_resolveOk s ret healthy reopenOk cmd hfail hth hid]
      cases reopenOk <;>
        refine ⟨?_, ?_, ?_, ?_, fun ht more => runLoop_stopped _ more ht⟩ <;>
        simp [countResolve, countOpenAttempt, List.countP_cons, List.countP_nil, hid]

/-- Witness for C7: concrete failing resolve at the threshold stops the
monitor after one resolver call. -/
theorem c7_healing_failure_escalates_immediately_witness :
    (sampleStep { failures := 2, hasId := true, capOpen := true, stopped := false }
        false false false true Cmd.cNone).1.stopped = true ∧
    (sampleStep { failures := 2, hasId := true, capOpen := true, stopped := false }
        false false false true Cmd.cNone).2 = [HealEvent.eResolve false] :=
  (c7_healing_failure_escalates_immediately
      { failures := 2, hasId := true, capOpen := true, stopped := false }
      false false false true Cmd.cNone (by decide) (by decide)).2.2.1 rfl rfl

/-- Balance checking distributes over concatenation of traces. -/
lemma balancedFrom_append (k : Int) (l1 l2 : List HealEvent) :
    balancedFrom k (l1 ++ l2) =
      (balancedFrom k l1 && balancedFrom (finalBal k l1) l2) := by
  induction l1 generalizing k with
  | nil => simp [balancedFrom, finalBal]
  | cons e t ih => simp [balancedFrom, finalBal, ih, Bool.and_assoc]

/-- The final balance of a concatenation is reached in two stages. -/
lemma finalBal_append (k : Int) (l1 l2 : List HealEvent) :
    finalBal k (l1 ++ l2) = finalBal (finalBal k l1) l2 := by
  induction l1 generalizing k with
  | nil => rfl
  | cons e t ih => simp [finalBal, ih]

/-- One live loop step with an open capture keeps the number of open
handles within 0 and 1 at every event, ends with a number of open
handles matching the capOpen flag, and preserves the invariant that a
live state owns an open capture. -/
lemma stepM_balance (s : MState) (i : MInput) (hrun : s.stopped = false)
    (hcap : s.capOpen = true) :
    balancedFrom 1 (stepM s i).2 = true ∧
    finalBal 1 (stepM s i).2 = (if (stepM s i).1.capOpen = true then 1 else 0) ∧
    ((stepM s i).1.stopped = false → (stepM s i).1.capOpen = true) := by
  cases i with
  | tick cmd => cases cmd <;> simp [stepM, balancedFrom, finalBal, hcap]
  | interrupt => simp [stepM, balancedFrom, finalBal, hcap]
  | sample ret healthy resolveOk reopenOk cmd =>
    simp only [stepM]
    by_cases hok : (ret && healthy) = true
    · obtain ⟨h1, h2⟩ := Bool.and_eq_true_iff.mp hok
      subst h1; subst h2
      simp only [sampleStep_healthy]
      cases cmd <;> simp [balancedFrom, finalBal, hcap]
    · have hfail : (ret && healthy) = false := by
        revert hok; cases (ret && healthy) <;> simp
      by_cases hth : 3 ≤ s.failures + 1
      · cases hid : s.hasId with
        | false =>
          simp only [sampleStep_heal_noId s ret healthy resolveOk reopenOk cmd hfail hth hid]
          cases reopenOk <;>
            simp [balancedFrom, finalBal, openDelta, hcap, hrun]
        | true =>
          cases resolveOk with
          | false =>
            simp only [sampleStep_heal_resolveFail s ret healthy reopenOk cmd hfail hth hid]
            simp [balancedFrom, finalBal, openDelta, hcap]
          | true =>
            simp only [sampleStep_heal_resolveOk s ret healthy reopenOk cmd hfail hth hid]
            cases reopenOk <;>
              simp [balancedFrom, finalBal, openDelta, hcap, hrun]
      · simp only [sampleStep_fail_low s ret healthy resolveOk reopenOk cmd hfail (by omega)]
        simp [balancedFrom, finalBal, hcap, hrun]

/-- Along any run of the loop started in a live state owning its
capture, the open-handle count stays within 0 and 1, matches the
capOpen flag at the end, and the live-owns-capture invariant is kept. -/
lemma runLoop_balance (inputs : List MInput) : ∀ s : MState,
    (s.stopped = false → s.capOpen = true) →
    balancedFrom (if s.capOpen = true then 1 else 0) (runLoop s inputs).2 = true ∧
    finalBal (if s.capOpen = true then 1 else 0) (runLoop s inputs).2 =
      (if (runLoop s inputs).1.capOpen = true then 1 else 0) ∧
    ((runLoop s inputs).1.stopped = false → (runLoop s inputs).1.capOpen = true) := by
  induction inputs with
  | nil => intro s h; exact ⟨rfl, rfl, h⟩
  | cons i is ih =>
    intro s h
    by_cases hs : s.stopped = true
    · rw [runLoop_stopped s (i :: is) hs]
      exact ⟨rfl, rfl, h⟩
    · have hs2 : s.stopped = false := by
        revert hs; cases s.stopped <;> simp
      have hcap : s.capOpen = true := h hs2
      simp only [runLoop, hs2, Bool.false_eq_true, if_false]
      have hstep := stepM_balance s i hs2 hcap
      have hrec := ih (stepM s i).1 hstep.2.2
      refine ⟨?_, ?_, hrec.2.2⟩
      · rw [hcap]
        simp only [if_pos]
        rw [balancedFrom_append, hstep.1, hstep.2.1, hrec.1]
        rfl
      · rw [hcap]
        simp only [if_pos]
        rw [finalBal_append, hstep.2.1, hrec.2.1]

/-- C5: in any monitoring session, after every single resource event
the number of simultaneously open capture handles is between 0 and 1
(the capture is released before its replacement is opened, and no
second handle ever coexists with the first), and when the session has
stopped every handle that was opened has been released exactly once
(the final open-handle count is 0). -/
theorem c5_at_most_one_capture_open (hasId initOpenOk : Bool) (inputs : List MInput) :
    balancedFrom 0 (playM hasId initOpenOk inputs).2 = true ∧
    ((playM hasId initOpenOk inputs).1.stopped = true →
      finalBal 0 (playM hasId initOpenOk inputs).2 = 0) := by
  cases initOpenOk with
  | false =>
    constructor
    · simp [playM, balancedFrom, openDelta]
    · intro
      simp [playM, finalBal, openDelta]
  | true =>
    have hb := runLoop_balance inputs (initState hasId) (fun _ => rfl)
    have hb1 : balancedFrom 1 (runLoop (initState hasId) inputs).2 = true := by
      have := hb.1
      simpa [initState] using this
    have hb2 : finalBal 1 (runLoop (initState hasId) inputs).2 =
        (if (runLoop (initState hasId) inputs).1.capOpen = true then 1 else 0) := by
      have := hb.2.1
      simpa [initState] using this
    by_cases hstop : (runLoop (initState hasId) inputs).1.stopped = true
    · by_cases hcap : (runLoop (initState hasId) inputs).1.capOpen = true
      · simp only [playM, if_pos, hstop, hcap]
        have htail : balancedFrom 1
            ((runLoop (initState hasId) inputs).2 ++ [HealEvent.eRelease]) = true := by
          rw [balancedFrom_append, hb1, hb2, if_pos hcap]
          norm_num [balancedFrom, openDelta]
        have htail2 : finalBal 1
            ((runLoop (initState hasId) inputs).2 ++ [HealEvent.eRelease]) = 0 := by
          rw [finalBal_append, hb2, if_pos hcap]
          norm_num [finalBal, openDelta]
        constructor
        · simp [balancedFrom, openDelta, List.append_eq, htail]
        · intro
          simp [finalBal, openDelta, List.append_eq, htail2]
      · have hcap2 : (runLoop (initState hasId) inputs).1.capOpen = false := by
          revert hcap; cases (runLoop (initState hasId) inputs).1.capOpen <;> simp
        have htail2 : finalBal 1 (runLoop (initState hasId) inputs).2 = 0 := by
          rw [hb2, hcap2]
          norm_num
        simp only [playM, if_pos, hstop, hcap2, Bool.false_eq_true, if_false]
        constructor
        · simp [balancedFrom, openDelta, hb1]
        · intro
          simp [finalBal, openDelta, htail2]
    · have hstop2 : (runLoop (initState hasId) inputs).1.stopped = false := by
        revert hstop; cases (runLoop (initState hasId) inputs).1.stopped <;> simp
      simp only [playM, if_pos, hstop2, Bool.false_eq_true, if_false]
      constructor
      · simp [balancedFrom, openDelta, hb1]
      · intro hcontra
        simp [hstop2] at hcontra

/-- Witness for C5: a session interrupted at once keeps the handle
count balanced and ends with every handle released. -/
theorem c5_at_most_one_capture_open_witness :
    balancedFrom 0 (playM false true [MInput.interrupt]).2 = true ∧
    finalBal 0 (playM false true [MInput.interrupt]).2 = 0 :=
  ⟨(c5_at_most_one_capture_open false true [MInput.interrupt]).1,
   (c5_at_most_one_capture_open false true [MInput.interrupt]).2 (by decide)⟩

/-- Searching the first hit of find? inside each group, group by group,
is searching the flattened list. -/
lemma findSome?_find?_flatMap {α β : Type} (p : α → Bool)
    (l : List β) (g : β → List α) :
    (l.findSome? (fun b => (g b).find? p)) = (l.flatMap g).find? p := by
  induction l with
  | nil => rfl
  | cons b t ih =>
    rw [List.flatMap_cons, List.find?_append, List.findSome?_cons]
    cases h : (g b).find? p with
    | none => simp only [h, Option.or, ih]
    | some a => simp only [h, Option.or]

/-- C9: for every camera hierarchy and query, find_camera returns
exactly the first camera, in insertion order of the
country-state-city-camera nesting, whose name contains the query
case-insensitively, and returns none exactly when no camera name
matches. -/
theorem c9_find_camera_first_match (data : List Country) (q : List Char) :
    find_camera data q = (allCameras data).find? (nameMatches q) ∧
    (find_camera data q = none ↔
      ∀ cam ∈ allCameras data, nameMatches q cam = false) := by
  have h : find_camera data q = (allCameras data).find? (nameMatches q) := by
    simp only [find_camera, allCameras, findSome?_find?_flatMap]
  refine ⟨h, ?_⟩
  rw [h, List.find?_eq_none]
  simp only [Bool.not_eq_true]

/-- C2: for every decoded frame with pixel standard deviation below 2
and mean luminance at least 10, the claim says the classification must
be FrozenOrNoise (non-healthy).  The code never computes a deviation:
the uniform gray frame of luminance 100 (deviation 0, mean 100) is
classified healthy, contradicting the claim and the docstring of
check_stream_health, which promises a very-low-variance rejection. -/
theorem c2_frozen_not_detected :
    pixelVar [100, 100, 100, 100] < 4 ∧
    10 ≤ pixelMean [100, 100, 100, 100] ∧
    check_stream_health (some [100, 100, 100, 100]) = true := by
  refine ⟨?_, ?_, ?_⟩
  · norm_num [pixelVar, pixelMean]
  · norm_num [pixelMean]
  · norm_num [check_stream_health, List.countP_cons, List.countP_nil]

/-- C3 counterexample: the frame with pixels 36, 0, 0, 0 has mean
luminance 9 (below 10) and variance 243 (deviation at least 2), yet
check_stream_health classifies it healthy: a quarter of its pixels are
above the dark threshold, and mean luminance is never consulted. -/
theorem c3_counterexample :
    pixelMean [36, 0, 0, 0] < 10 ∧
    4 ≤ pixelVar [36, 0, 0, 0] ∧
    check_stream_health (some [36, 0, 0, 0]) = true := by
  refine ⟨?_, ?_, ?_⟩
  · norm_num [pixelMean]
  · norm_num [pixelVar, pixelMean]
  · norm_num [check_stream_health, List.countP_cons, List.countP_nil]

/-- C3 amended: the code classifies a decoded frame as dead exactly when
fewer than 2 percent of its pixels have luminance above 5; mean
luminance is not consulted directly, but every frame so rejected does
have mean luminance below 10 (for 8-bit pixels), while the converse
fails (see the counterexample). -/
theorem c3_black_frames_have_low_mean (px : List Nat) (hne : px ≠ [])
    (hb : ∀ v ∈ px, v ≤ 255)
    (h : check_stream_health (some px) = false) :
    pixelMean px < 10 := by
  have hlen : 0 < px.length := List.length_pos.mpr hne
  have hlenQ : (0 : ℚ) < (px.length : ℚ) := by exact_mod_cast hlen
  have hnz : 50 * px.countP (fun v => decide (5 < v)) < px.length :=
    (check_false_iff px hne).mp h
  have hsum : px.sum ≤ 5 * px.length + 250 * px.countP (fun v => decide (5 < v)) :=
    sum_le_of_bounded px hb
  have hlt : px.sum < 10 * px.length := by omega
  rw [pixelMean, sum_map_cast, div_lt_iff₀ hlenQ]
  calc ((px.sum : Nat) : ℚ) < ((10 * px.length : Nat) : ℚ) := by exact_mod_cast hlt
    _ = 10 * (px.length : ℚ) := by push_cast; ring

/-- Witness: the all-black 4-pixel frame is rejected by the classifier
and indeed has mean luminance below 10. -/
theorem c3_black_frames_have_low_mean_witness :
    pixelMean [0, 0, 0, 0] < 10 :=
  c3_black_frames_have_low_mean [0, 0, 0, 0] (by decide) (by decide)
    (by norm_num [check_stream_health, List.countP_cons, List.countP_nil])

/-- C8: the address resolution runs the external process under a fixed
15 second timeout, and every failure of the bounded call (timeout,
any other exception, or a nonzero exit code) is reported as an absent
address; only a clean exit yields an address (the stripped stdout).
Nothing is raised to the caller. -/
theorem c8_resolution_bounded_and_absorbing :
    ytdlpTimeoutSeconds = 15 ∧
    runYtDlp SubprocOutcome.timedOut = none ∧
    runYtDlp SubprocOutcome.raised = none ∧
    (∀ (rc : Int) (out : List Char), rc ≠ 0 →
      runYtDlp (SubprocOutcome.completed rc out) = none) ∧
    (∀ out : List Char,
      runYtDlp (SubprocOutcome.completed 0 out) = some (pyStrip out)) := by
  refine ⟨rfl, rfl, rfl, ?_, ?_⟩
  · intro rc out hrc
    simp [runYtDlp, hrc]
  · intro out
    simp [runYtDlp]

/-- Witness: a run that exits with code 1 resolves to no address. -/
theorem c8_resolution_witness :
    runYtDlp (SubprocOutcome.completed 1 []) = none :=
  c8_resolution_bounded_and_absorbing.2.2.2.1 1 [] (by decide)

/-- Case equation of splitFirst when the separator does not match at
the head. -/
lemma splitFirst_cons_neg (sep : List Char) (c : Char) (cs : List Char)
    (h : sep.isPrefixOf (c :: cs) = false) :
    splitFirst sep (c :: cs) =
      (splitFirst sep cs).map (fun pq => (c :: pq.1, pq.2)) := by
  simp only [splitFirst, h, Bool.false_eq_true, if_false]
  cases splitFirst sep cs with
  | none => rfl
  | some pq => rfl

/-- Case equation of splitFirst when the separator matches at the
head. -/
lemma splitFirst_cons_pos (sep : List Char) (c : Char) (cs : List Char)
    (h : sep.isPrefixOf (c :: cs) = true) :
    splitFirst sep (c :: cs) = some ([], (c :: cs).drop sep.length) := by
  simp only [splitFirst, h, if_true]

/-- splitFirst finds something exactly when some suffix of the string
starts with the separator. -/
lemma splitFirst_isSome_iff (sep : List Char) : ∀ s : List Char,
    (splitFirst sep s).isSome = true ↔
      ∃ t, t <:+ s ∧ sep.isPrefixOf t = true := by
  intro s
  induction s with
  | nil =>
    cases sep with
    | nil =>
      simp only [splitFirst, List.isEmpty_nil, if_true, Option.isSome_some, true_iff]
      exact ⟨[], List.suffix_refl [], rfl⟩
    | cons c cs =>
      constructor
      · intro h
        simp [splitFirst] at h
      · rintro ⟨t, ht, hp⟩
        rw [List.suffix_nil.mp ht] at hp
        simp [List.isPrefixOf] at hp
  | cons c cs ih =>
    by_cases hpre : sep.isPrefixOf (c :: cs) = true
    · rw [splitFirst_cons_pos sep c cs hpre]
      simp only [Option.isSome_some, true_iff]
      exact ⟨c :: cs, List.suffix_refl _, hpre⟩
    · have hpre2 : sep.isPrefixOf (c :: cs) = false := by
        revert hpre; cases sep.isPrefixOf (c :: cs) <;> simp
      rw [splitFirst_cons_neg sep c cs hpre2]
      have hmap : (Option.map (fun pq : List Char × List Char => (c :: pq.1, pq.2))
          (splitFirst sep cs)).isSome = (splitFirst sep cs).isSome := by
        cases splitFirst sep cs <;> rfl
      rw [hmap, ih]
      constructor
      · rintro ⟨t, ht, hp⟩
        exact ⟨t, ht.trans (List.suffix_cons c cs), hp⟩
      · rintro ⟨t, ht, hp⟩
        rcases List.suffix_cons_iff.mp ht with h1 | h2
        · rw [h1] at hp
          rw [hpre2] at hp
          exact absurd hp (by simp)
        · exact ⟨t, h2, hp⟩

/-- When no suffix starts with the separator, splitFirst finds
nothing. -/
lemma splitFirst_eq_none (sep s : List Char)
    (h : ∀ t, t <:+ s → sep.isPrefixOf t = false) :
    splitFirst sep s = none := by
  cases hs : splitFirst sep s with
  | none => rfl
  | some pq =>
    exfalso
    have hsome : (splitFirst sep s).isSome = true := by rw [hs]; rfl
    obtain ⟨t, ht, hp⟩ := (splitFirst_isSome_iff sep s).mp hsome
    rw [h t ht] at hp
    exact absurd hp (by simp)

/-- A list is a prefix of itself followed by anything. -/
lemma isPrefixOf_self_append (l t : List Char) : l.isPrefixOf (l ++ t) = true := by
  induction l with
  | nil => cases t <;> rfl
  | cons c cs ih => simp [List.isPrefixOf, ih]

/-- splitFirst at an explicit occurrence of the separator in front. -/
lemma splitFirst_at_sep (sep t : List Char) (hne : sep ≠ []) :
    splitFirst sep (sep ++ t) = some ([], t) := by
  cases sep with
  | nil => exact absurd rfl hne
  | cons c cs =>
    rw [List.cons_append,
      splitFirst_cons_pos (c :: cs) c (cs ++ t) (isPrefixOf_self_append (c :: cs) t)]
    show some (([] : List Char), ((c :: cs) ++ t).drop (c :: cs).length) = some ([], t)
    rw [List.drop_left]

/-- Reading upToFirst off a computed split. -/
lemma upToFirst_eq_of_some {sep s a b : List Char}
    (h : splitFirst sep s = some (a, b)) : upToFirst sep s = a := by
  unfold upToFirst
  rw [h]

/-- Reading upToFirst off an absent split. -/
lemma upToFirst_eq_of_none {sep s : List Char}
    (h : splitFirst sep s = none) : upToFirst sep s = s := by
  unfold upToFirst
  rw [h]

/-- Reading segAfterFirst off a computed split. -/
lemma segAfterFirst_eq {sep s a b : List Char}
    (h : splitFirst sep s = some (a, b)) :
    segAfterFirst sep s = upToFirst sep b := by
  unfold segAfterFirst
  rw [h]

/-- A suffix of an appended list is a suffix of the right part or the
right part preceded by a nonempty suffix of the left part. -/
lemma suffix_append_cases {q l1 l2 : List Char} (h : q <:+ l1 ++ l2) :
    q <:+ l2 ∨ ∃ q1, q1 <:+ l1 ∧ q1 ≠ [] ∧ q = q1 ++ l2 := by
  induction l1 with
  | nil => exact Or.inl h
  | cons c t ih =>
    rw [List.cons_append] at h
    rcases List.suffix_cons_iff.mp h with h1 | h2
    · exact Or.inr ⟨c :: t, List.suffix_refl _, by simp, h1⟩
    · rcases ih h2 with h3 | ⟨q1, hq1, hne, heq⟩
      · exact Or.inl h3
      · exact Or.inr ⟨q1, hq1.trans (List.suffix_cons c t), hne, heq⟩

/-- A nonempty suffix of a list ending in a fixed element keeps that
element at its end. -/
lemma suffix_snoc {l : List Char} {a : Char} {q : List Char}
    (h : q <:+ l ++ [a]) (hne : q ≠ []) :
    ∃ q2, q = q2 ++ [a] ∧ q2 <:+ l := by
  induction l with
  | nil =>
    rcases List.suffix_cons_iff.mp h with h1 | h2
    · exact ⟨[], h1, List.suffix_refl _⟩
    · exact absurd (List.suffix_nil.mp h2) hne
  | cons c t ih =>
    rw [List.cons_append] at h
    rcases List.suffix_cons_iff.mp h with h1 | h2
    · exact ⟨c :: t, h1, List.suffix_refl _⟩
    · obtain ⟨q2, heq, hsuf⟩ := ih h2
      exact ⟨q2, heq, hsuf.trans (List.suffix_cons c t)⟩

/-- Every character of a separator found inside a string belongs to the
string. -/
lemma mem_of_sep_occurs {sep q s : List Char} (hs : q <:+ s)
    (hp : sep.isPrefixOf q = true) {c : Char} (hc : c ∈ sep) : c ∈ s :=
  hs.subset ((List.isPrefixOf_iff_prefix.mp hp).subset hc)

/-- splitFirst skips a leading zone in which no occurrence of the
separator can start. -/
lemma splitFirst_append_of_clean (sep : List Char) : ∀ (p s : List Char),
    (∀ q, q <:+ p → q ≠ [] → sep.isPrefixOf (q ++ s) = false) →
    splitFirst sep (p ++ s) =
      (splitFirst sep s).map (fun pq => (p ++ pq.1, pq.2)) := by
  intro p
  induction p with
  | nil =>
    intro s h
    rw [List.nil_append]
    cases hs : splitFirst sep s with
    | none => rfl
    | some pq => rfl
  | cons c p2 ih =>
    intro s h
    have hc : sep.isPrefixOf ((c :: p2) ++ s) = false :=
      h (c :: p2) (List.suffix_refl _) (by simp)
    have h2 : ∀ q, q <:+ p2 → q ≠ [] → sep.isPrefixOf (q ++ s) = false :=
      fun q hq hne => h q (hq.trans (List.suffix_cons c p2)) hne
    rw [List.cons_append, splitFirst_cons_neg sep c (p2 ++ s) hc, ih s h2]
    cases splitFirst sep s with
    | none => rfl
    | some pq => rfl

/-- A separator with a head missing from a zone cannot start inside a
nonempty suffix of that zone. -/
lemma cons_sep_not_prefixOf {b : Char} {sep2 P q s : List Char}
    (hb : b ∉ P) (hq : q <:+ P) (hne : q ≠ []) :
    (b :: sep2).isPrefixOf (q ++ s) = false := by
  cases q with
  | nil => exact absurd rfl hne
  | cons d q2 =>
    have hd : d ∈ P := hq.subset (List.mem_cons_self d q2)
    have hbd : ¬ (b = d) := fun h0 => hb (h0 ▸ hd)
    rw [List.cons_append]
    simp [List.isPrefixOf, hbd]

/-- A separator containing a character no id can contain does not start
inside the id zone of an id followed by a tail that opens with a
character outside the separator. -/
lemma sep_not_prefixOf_idzone {sep v q rest : List Char} (x : Char)
    (hbad : ∃ c ∈ sep, isIdChar c = false)
    (hv : ∀ c ∈ v, isIdChar c = true)
    (hq : q <:+ v)
    (hrest : rest = [] ∨ ((∃ r2, rest = x :: r2) ∧ x ∉ sep)) :
    sep.isPrefixOf (q ++ rest) = false := by
  cases hp : sep.isPrefixOf (q ++ rest) with
  | false => rfl
  | true =>
    exfalso
    have hsp : sep <+: q ++ rest := List.isPrefixOf_iff_prefix.mp hp
    obtain ⟨c0, hc0mem, hc0bad⟩ := hbad
    have hqpre : q <+: q ++ rest := List.prefix_append q rest
    by_cases hlen : sep.length ≤ q.length
    · have hsq : sep <+: q := List.prefix_of_prefix_length_le hsp hqpre hlen
      have hcv : c0 ∈ v := hq.subset (hsq.subset hc0mem)
      have h1 := hv c0 hcv
      rw [hc0bad] at h1
      exact absurd h1 (by simp)
    · have hlt : q.length < sep.length := by omega
      have hqsep : q <+: sep :=
        List.prefix_of_prefix_length_le hqpre hsp (by omega)
      obtain ⟨t, ht⟩ := hqsep
      have htne : t ≠ [] := by
        intro h0
        rw [h0, List.append_nil] at ht
        rw [← ht] at hlt
        omega
      obtain ⟨u, hu⟩ := hsp
      rw [← ht, List.append_assoc] at hu
      have htu : t ++ u = rest := List.append_cancel_left hu
      have htrest : t <+: rest := ⟨u, htu⟩
      rcases hrest with h0 | ⟨⟨r2, hr2⟩, hxnot⟩
      · rw [h0] at htrest
        exact htne (List.prefix_nil.mp htrest)
      · rw [hr2] at htrest
        cases t with
        | nil => exact htne rfl
        | cons d t2 =>
          obtain ⟨hdx, _⟩ := List.cons_prefix_cons.mp htrest
          have hdsep : d ∈ sep := by
            rw [← ht]
            exact List.mem_append_right q (List.mem_cons_self d t2)
          rw [hdx] at hdsep
          exact hxnot hdsep

/-- A one-character separator outside the id alphabet does not start
inside a nonempty suffix of an id. -/
lemma single_sep_not_prefixOf_idzone {a : Char} {v q rest : List Char}
    (ha : isIdChar a = false) (hv : ∀ c ∈ v, isIdChar c = true)
    (hq : q <:+ v) (hne : q ≠ []) :
    [a].isPrefixOf (q ++ rest) = false := by
  cases q with
  | nil => exact absurd rfl hne
  | cons d q2 =>
    have hd : d ∈ v := hq.subset (List.mem_cons_self d q2)
    have hda : ¬ (a = d) := by
      intro h0
      have h1 := hv d hd
      rw [← h0, ha] at h1
      exact absurd h1 (by simp)
    rw [List.cons_append]
    simp [List.isPrefixOf, hda]

/-- A separator containing a character outside the id alphabet has no
occurrence inside a bare id. -/
lemma no_sep_in_id {sep v : List Char} (hbad : ∃ c ∈ sep, isIdChar c = false)
    (hv : ∀ c ∈ v, isIdChar c = true) :
    ∀ t, t <:+ v → sep.isPrefixOf t = false := by
  intro t ht
  cases hp : sep.isPrefixOf t with
  | false => rfl
  | true =>
    exfalso
    obtain ⟨c0, hc0, hbadc⟩ := hbad
    have hcv : c0 ∈ v := mem_of_sep_occurs ht hp hc0
    have h1 := hv c0 hcv
    rw [hbadc] at h1
    exact absurd h1 (by simp)

/-- A witness occurrence makes containsSub true. -/
lemma containsSub_of_suffix {sep t s : List Char} (hs : t <:+ s)
    (hp : sep.isPrefixOf t = true) : containsSub sep s = true := by
  unfold containsSub
  exact (splitFirst_isSome_iff sep s).mpr ⟨t, hs, hp⟩

/-- Absence of occurrences makes containsSub false. -/
lemma containsSub_eq_false {sep s : List Char}
    (h : ∀ t, t <:+ s → sep.isPrefixOf t = false) : containsSub sep s = false := by
  unfold containsSub
  rw [splitFirst_eq_none sep s h]
  rfl

/-- A false containsSub excludes every occurrence. -/
lemma no_occ_of_containsSub_false {sep s : List Char}
    (h : containsSub sep s = false) :
    ∀ t, t <:+ s → sep.isPrefixOf t = false := by
  intro t ht
  cases hp : sep.isPrefixOf t with
  | false => rfl
  | true =>
    exfalso
    have h2 := containsSub_of_suffix ht hp
    rw [h] at h2
    exact absurd h2 (by simp)

/-- Occurrence-freedom of an appended string splits into a leading-zone
condition and a tail condition. -/
lemma no_occ_append {sep v rest : List Char}
    (hzone : ∀ q, q <:+ v → q ≠ [] → sep.isPrefixOf (q ++ rest) = false)
    (htail : ∀ t, t <:+ rest → sep.isPrefixOf t = false) :
    ∀ t, t <:+ v ++ rest → sep.isPrefixOf t = false := by
  intro t ht
  rcases suffix_append_cases ht with h1 | ⟨q, hq, hne, heq⟩
  · exact htail t h1
  · rw [heq]
    exact hzone q hq hne

/-- A nonempty separator is not a prefix of any suffix of the empty
string. -/
lemma not_prefixOf_nil {sep : List Char} (h : sep ≠ []) :
    ∀ t : List Char, t <:+ ([] : List Char) → sep.isPrefixOf t = false := by
  intro t ht
  rw [List.suffix_nil.mp ht]
  cases sep with
  | nil => exact absurd rfl h
  | cons c cs => rfl

/-- A lone non-id separator character first occurs, in an id followed
by that character, exactly at the junction. -/
lemma upToFirst_sep_idzone {a : Char} {v x : List Char}
    (ha : isIdChar a = false) (hv : ∀ c ∈ v, isIdChar c = true) :
    upToFirst [a] (v ++ a :: x) = v := by
  have hclean : ∀ q, q <:+ v → q ≠ [] → [a].isPrefixOf (q ++ (a :: x)) = false :=
    fun q hq hne => single_sep_not_prefixOf_idzone ha hv hq hne
  have h1 : splitFirst [a] (v ++ a :: x) = some (v ++ [], x) := by
    rw [show ((a :: x : List Char)) = [a] ++ x from rfl,
      splitFirst_append_of_clean [a] v ([a] ++ x) hclean,
      splitFirst_at_sep [a] x (by simp)]
    rfl
  rw [upToFirst_eq_of_some h1, List.append_nil]

/-- In a bare id a lone non-id separator character never occurs. -/
lemma upToFirst_sep_id_nil {a : Char} {v : List Char}
    (ha : isIdChar a = false) (hv : ∀ c ∈ v, isIdChar c = true) :
    upToFirst [a] v = v := by
  apply upToFirst_eq_of_none
  apply splitFirst_eq_none
  exact no_sep_in_id ⟨a, List.mem_cons_self a [], ha⟩ hv

/-- When a separator cannot start inside the id zone or at the
junction, the first occurrence in id ++ junction ++ tail, if any, lies
in the tail, so the prefix up to it keeps the id and the junction. -/
lemma upToFirst_idzone_shape (sep : List Char) {v : List Char} (r2 : List Char) (a : Char)
    (hbad : ∃ c ∈ sep, isIdChar c = false)
    (hv : ∀ c ∈ v, isIdChar c = true)
    (hxa : a ∉ sep) :
    ∃ x, upToFirst sep (v ++ a :: r2) = v ++ a :: x := by
  have hclean : ∀ q, q <:+ v ++ [a] → q ≠ [] → sep.isPrefixOf (q ++ r2) = false := by
    intro q hq hne
    obtain ⟨q2, rfl, hq2⟩ := suffix_snoc hq hne
    have h1 : sep.isPrefixOf (q2 ++ (a :: r2)) = false :=
      sep_not_prefixOf_idzone a hbad hv hq2 (Or.inr ⟨⟨r2, rfl⟩, hxa⟩)
    rw [List.append_assoc]
    exact h1
  have hsp := splitFirst_append_of_clean sep (v ++ [a]) r2 hclean
  have hconv : (v ++ [a]) ++ r2 = v ++ a :: r2 := by
    rw [List.append_assoc]
    rfl
  cases hs : splitFirst sep r2 with
  | none =>
    refine ⟨r2, ?_⟩
    rw [← hconv]
    rw [upToFirst_eq_of_none (by rw [hsp, hs]; rfl)]
  | some pq =>
    refine ⟨pq.1, ?_⟩
    rw [← hconv]
    rw [upToFirst_eq_of_some (by rw [hsp, hs]; rfl)]
    rw [List.append_assoc]
    rfl

/-- A list that factors as l followed by something is begun by l even
after further material is appended. -/
lemma isPrefixOf_of_eq_append {l m : List Char} (m2 : List Char)
    (h : m = l ++ m2) (t : List Char) : l.isPrefixOf (m ++ t) = true := by
  subst h
  rw [List.append_assoc]
  exact isPrefixOf_self_append l (m2 ++ t)

/-- The v= separator cannot start inside a nonempty suffix of a zone
free of the letter v. -/
lemma vSep_not_prefixOf_of_head {P q s : List Char} (hb : 'v' ∉ P)
    (hq : q <:+ P) (hne : q ≠ []) : vSep.isPrefixOf (q ++ s) = false := by
  have h1 : ('v' :: ['=']).isPrefixOf (q ++ s) = false :=
    cons_sep_not_prefixOf hb hq hne
  exact h1

/-- The youtu.be/ separator cannot start inside a nonempty suffix of a
zone free of the letter y. -/
lemma ytBeSlash_not_prefixOf_of_head {P q s : List Char} (hb : 'y' ∉ P)
    (hq : q <:+ P) (hne : q ≠ []) : ytBeSlash.isPrefixOf (q ++ s) = false := by
  have h1 : ('y' :: "outu.be/".toList).isPrefixOf (q ++ s) = false :=
    cons_sep_not_prefixOf hb hq hne
  exact h1

/-- The v= separator contains a character no id contains. -/
lemma vSep_bad : ∃ c ∈ vSep, isIdChar c = false := ⟨'=', by decide, by decide⟩

/-- The youtu.be/ separator contains a character no id contains. -/
lemma ytBeSlash_bad : ∃ c ∈ ytBeSlash, isIdChar c = false := ⟨'.', by decide, by decide⟩

/-- Normalizing a canonical watch URL built from a bare id and an
optional ampersand-led tail recovers the bare id. -/
lemma extractId_watch (v r : List Char) (hv : ∀ c ∈ v, isIdChar c = true)
    (hr : r = [] ∨ ∃ r2, r = '&' :: r2) :
    extractId (watchBase ++ (vSep ++ (v ++ r))) = v := by
  have hsplitW : watchBase = wwwPre ++ ("youtube.com/watch?".toList) := by decide
  have hytc : containsSub ytCom (watchBase ++ (vSep ++ (v ++ r))) = true := by
    have hsuf : (("youtube.com/watch?".toList) ++ (vSep ++ (v ++ r))) <:+
        (watchBase ++ (vSep ++ (v ++ r))) := by
      rw [hsplitW, List.append_assoc]
      exact List.suffix_append _ _
    exact containsSub_of_suffix hsuf
      (isPrefixOf_of_eq_append ("/watch?".toList) (by decide) _)
  have hvs : containsSub vSep (watchBase ++ (vSep ++ (v ++ r))) = true := by
    have hsuf : (vSep ++ (v ++ r)) <:+ (watchBase ++ (vSep ++ (v ++ r))) :=
      List.suffix_append _ _
    exact containsSub_of_suffix hsuf (isPrefixOf_self_append vSep (v ++ r))
  have hclean : ∀ q, q <:+ watchBase → q ≠ [] →
      vSep.isPrefixOf (q ++ (vSep ++ (v ++ r))) = false :=
    fun q hq hne => vSep_not_prefixOf_of_head (by decide) hq hne
  have hW3 : splitFirst vSep (watchBase ++ (vSep ++ (v ++ r)))
      = some (watchBase, v ++ r) := by
    rw [splitFirst_append_of_clean vSep watchBase (vSep ++ (v ++ r)) hclean,
      splitFirst_at_sep vSep (v ++ r) (by decide)]
    simp
  unfold extractId
  rw [hytc, Bool.true_or, if_pos rfl, hvs, if_pos rfl]
  rw [segAfterFirst_eq hW3]
  rcases hr with rfl | ⟨r2, rfl⟩
  · rw [List.append_nil]
    rw [upToFirst_eq_of_none (splitFirst_eq_none vSep v (no_sep_in_id vSep_bad hv))]
    exact upToFirst_sep_id_nil (by decide) hv
  · obtain ⟨x, hx⟩ := upToFirst_idzone_shape vSep r2 '&' vSep_bad hv (by decide)
    rw [hx]
    exact upToFirst_sep_idzone (by decide) hv

/-- Normalizing a canonical youtu.be short URL built from a bare id and
an optional question-mark-led tail free of v= recovers the bare id. -/
lemma extractId_short (v r : List Char) (hv : ∀ c ∈ v, isIdChar c = true)
    (hr : r = [] ∨ ∃ r2, r = '?' :: r2 ∧ containsSub vSep r2 = false) :
    extractId (shortBase ++ (v ++ r)) = v := by
  have hsplitS : shortBase = httpsPre ++ ytBeSlash := by decide
  have hbesuf : (ytBeSlash ++ (v ++ r)) <:+ (shortBase ++ (v ++ r)) := by
    rw [hsplitS, List.append_assoc]
    exact List.suffix_append _ _
  have hytbe : containsSub ytBe (shortBase ++ (v ++ r)) = true :=
    containsSub_of_suffix hbesuf (isPrefixOf_of_eq_append ("/".toList) (by decide) _)
  have hytbs : containsSub ytBeSlash (shortBase ++ (v ++ r)) = true :=
    containsSub_of_suffix hbesuf (isPrefixOf_self_append ytBeSlash (v ++ r))
  have hnovs : containsSub vSep (shortBase ++ (v ++ r)) = false := by
    apply containsSub_eq_false
    apply no_occ_append
    · exact fun q hq hne => vSep_not_prefixOf_of_head (by decide) hq hne
    · apply no_occ_append
      · rcases hr with rfl | ⟨r2, rfl, hnr2⟩
        · exact fun q hq hne =>
            sep_not_prefixOf_idzone '?' vSep_bad hv hq (Or.inl rfl)
        · exact fun q hq hne =>
            sep_not_prefixOf_idzone '?' vSep_bad hv hq (Or.inr ⟨⟨r2, rfl⟩, by decide⟩)
      · rcases hr with rfl | ⟨r2, rfl, hnr2⟩
        · exact not_prefixOf_nil (by decide)
        · intro t ht
          rcases List.suffix_cons_iff.mp ht with rfl | h2
          · simp [vSep, List.isPrefixOf]
          · exact no_occ_of_containsSub_false hnr2 t h2
  have hcleanB : ∀ q, q <:+ httpsPre → q ≠ [] →
      ytBeSlash.isPrefixOf (q ++ (ytBeSlash ++ (v ++ r))) = false :=
    fun q hq hne => ytBeSlash_not_prefixOf_of_head (by decide) hq hne
  have hB4 : splitFirst ytBeSlash (shortBase ++ (v ++ r))
      = some (httpsPre, v ++ r) := by
    rw [hsplitS, List.append_assoc,
      splitFirst_append_of_clean ytBeSlash httpsPre (ytBeSlash ++ (v ++ r)) hcleanB,
      splitFirst_at_sep ytBeSlash (v ++ r) (by decide)]
    simp
  unfold extractId
  rw [hytbe, Bool.or_true, if_pos rfl, hnovs, if_neg (by simp)]
  rw [hytbs, if_pos rfl]
  rw [segAfterFirst_eq hB4]
  rcases hr with rfl | ⟨r2, rfl, hnr2⟩
  · rw [List.append_nil]
    rw [upToFirst_eq_of_none
      (splitFirst_eq_none ytBeSlash v (no_sep_in_id ytBeSlash_bad hv))]
    exact upToFirst_sep_id_nil (by decide) hv
  · obtain ⟨x, hx⟩ := upToFirst_idzone_shape ytBeSlash r2 '?' ytBeSlash_bad hv (by decide)
    rw [hx]
    exact upToFirst_sep_idzone (by decide) hv

/-- A bare id passes through the normalization unchanged. -/
lemma extractId_bare (v : List Char) (hv : ∀ c ∈ v, isIdChar c = true) :
    extractId v = v := by
  have h1 : containsSub ytCom v = false :=
    containsSub_eq_false (no_sep_in_id ⟨'.', by decide, by decide⟩ hv)
  have h2 : containsSub ytBe v = false :=
    containsSub_eq_false (no_sep_in_id ⟨'.', by decide, by decide⟩ hv)
  unfold extractId
  rw [h1, h2]
  simp

/-- C10 counterexample: on the youtu.be link youtu.be/A?v=Z the code
takes the v= branch first and extracts Z, while the claim reads a
youtu.be/ input as taking the path segment A (its v= clause is tied to
youtube.com inputs); the two extractions disagree, so resolving this
URL does not request the id its path contains. -/
theorem c10_counterexample :
    extractId c10input = ['Z'] ∧
    specExtractId c10input = ['A'] ∧
    extractId c10input ≠ specExtractId c10input := by decide

/-- C10 amended: the normalization accepts a bare id or a full URL, and
the v= branch takes priority over the youtu.be/ branch whenever v=
occurs anywhere in the input.  For every bare id (characters from the
id alphabet): a canonical watch URL with any ampersand-led tail, and a
canonical youtu.be URL with any question-mark-led tail not containing
v=, are normalized to the bare id, so resolving such a URL issues the
same request as resolving the id it contains; a bare id is passed
through unchanged. -/
theorem c10_url_extraction_amended (v : List Char)
    (hv : ∀ c ∈ v, isIdChar c = true) :
    (∀ r, (r = [] ∨ ∃ r2, r = '&' :: r2) →
      extractId (watchBase ++ (vSep ++ (v ++ r))) = v ∧
      requestUrl (watchBase ++ (vSep ++ (v ++ r))) = requestUrl v) ∧
    (∀ r, (r = [] ∨ ∃ r2, r = '?' :: r2 ∧ containsSub vSep r2 = false) →
      extractId (shortBase ++ (v ++ r)) = v ∧
      requestUrl (shortBase ++ (v ++ r)) = requestUrl v) ∧
    extractId v = v := by
  refine ⟨?_, ?_, extractId_bare v hv⟩
  · intro r hr
    have h1 := extractId_watch v r hv hr
    refine ⟨h1, ?_⟩
    unfold requestUrl
    rw [h1, extractId_bare v hv]
  · intro r hr
    have h1 := extractId_short v r hv hr
    refine ⟨h1, ?_⟩
    unfold requestUrl
    rw [h1, extractId_bare v hv]

/-- Witness for the amended C10: both canonical URL forms of a concrete
id are normalized back to the id. -/
theorem c10_url_extraction_amended_witness :
    extractId c10urlW = c10id ∧ extractId c10urlS = c10id := by
  have h := c10_url_extraction_amended c10id (by decide)
  constructor
  · have h1 := (h.1 ("&t=5".toList) (Or.inr ⟨"t=5".toList, by decide⟩)).1
    rw [show c10urlW = watchBase ++ (vSep ++ (c10id ++ ("&t=5".toList))) from by decide]
    exact h1
  · have h2 := (h.2.1 ("?t=5".toList)
      (Or.inr ⟨"t=5".toList, by decide, by decide⟩)).1
    rw [show c10urlS = shortBase ++ (c10id ++ ("?t=5".toList)) from by decide]
    exact h2
